import Mathlib

/-!
Shallow embedding of the retail sales analysis script (`src/code.py`).

The script is a linear pandas pipeline:
  `load_and_preprocess_data` → `get_monthly_sales` / `get_sales_by_hour` /
  `plot_total_sales_by_country`.

A dataframe is embedded as a `List` of row structures.  Exact rational
arithmetic (`Rat`) stands in for the float arithmetic of the source; all
claimed identities are exact identities in the source as well.

`pd.to_datetime(..., errors='coerce')` is a third-party library routine; its
result on each raw `InvoiceDate` cell is taken as given in the input: a raw
row carries `some t` when its date text parses to the timestamp `t` and
`none` when it is unparseable (pandas `NaT`).
-/

attribute [local semireducible] Rat.add Rat.mul Rat.sub

namespace RetailSales

/-! ### String ordering (pandas sorts object-dtype strings by code point) -/

/-- Strict lexicographic order on code-point lists. -/
def ltNatList : List Nat → List Nat → Bool
  | [], [] => false
  | [], _ :: _ => true
  | _ :: _, [] => false
  | a :: as, b :: bs => if a < b then true else if b < a then false else ltNatList as bs

/-- The code points of a string. -/
def strCodes (s : String) : List Nat :=
  s.data.map Char.toNat

/-- Strict code-point lexicographic order on strings, the order Python uses
to compare the `Country` values. -/
def strLt (a b : String) : Prop :=
  ltNatList (strCodes a) (strCodes b) = true

/-- The corresponding non-strict order. -/
def strLe (a b : String) : Prop :=
  ltNatList (strCodes b) (strCodes a) = false

instance : DecidableRel strLt := fun x y =>
  inferInstanceAs (Decidable (ltNatList (strCodes x) (strCodes y) = true))

instance : DecidableRel strLe := fun x y =>
  inferInstanceAs (Decidable (ltNatList (strCodes y) (strCodes x) = false))

/-! ### Data model -/

/-- A calendar timestamp as produced by the dataframe library's datetime
parse.  A pandas `Timestamp` always has its hour of day in `[0, 23]`, which
the `Fin 24` field records. -/
structure Timestamp where
  year : Nat
  month : Nat
  day : Nat
  hour : Fin 24
  minute : Nat
deriving DecidableEq, Repr

/-- A raw CSV row as read by `pd.read_csv`: columns Country, InvoiceDate,
Quantity, UnitPrice.  The `InvoiceDate` cell is represented by the result of
the datetime parse (`some t` if the text parses, `none` if not). -/
structure RawRow where
  Country : String
  InvoiceDate : Option Timestamp
  Quantity : Int
  UnitPrice : Rat
deriving DecidableEq, Repr

/-- A row of the preprocessed (cleaned) table: `InvoiceDate` is the index,
`TotalSales` has been computed, and the `Hour` column is absent (`none`)
until `get_sales_by_hour` assigns it. -/
structure Row where
  Country : String
  InvoiceDate : Timestamp
  Quantity : Int
  UnitPrice : Rat
  TotalSales : Rat
  Hour : Option Nat
deriving DecidableEq, Repr

/-! ### The pipeline -/

/-- `load_and_preprocess_data`:
`data['InvoiceDate'] = pd.to_datetime(data['InvoiceDate'], errors='coerce')`
followed by `data.dropna(subset=['InvoiceDate'])` keeps exactly the rows
whose date parsed; then `data['TotalSales'] = data['Quantity'] *
data['UnitPrice']` and `data.set_index('InvoiceDate')`. -/
def load_and_preprocess_data (raw : List RawRow) : List Row :=
  raw.filterMap fun r =>
    match r.InvoiceDate with
    | none => none
    | some t =>
      some { Country := r.Country
             InvoiceDate := t
             Quantity := r.Quantity
             UnitPrice := r.UnitPrice
             TotalSales := (r.Quantity : Rat) * r.UnitPrice
             Hour := none }

/-- `df.groupby(key)[col].sum()` evaluated at one group key: the sum of
`val` over the rows whose key equals `k`. -/
def sumBy {α κ : Type} [DecidableEq κ] (key : α → κ) (val : α → Rat)
    (l : List α) (k : κ) : Rat :=
  ((l.filter fun a => key a = k).map val).sum

/-- The group keys produced by `df.groupby(key)` with the default
`sort=True`: the distinct key values in ascending order. -/
def groupKeys {α κ : Type} [DecidableEq κ] (le : κ → κ → Prop)
    [DecidableRel le] (key : α → κ) (l : List α) : List κ :=
  List.insertionSort le (l.map key).dedup

/-- `df.groupby(key)[col].sum().reset_index()`: one `(key, sum)` pair per
distinct key, keys ascending. -/
def groupbySum {α κ : Type} [DecidableEq κ] (le : κ → κ → Prop)
    [DecidableRel le] (key : α → κ) (val : α → Rat) (l : List α) :
    List (κ × Rat) :=
  (groupKeys le key l).map fun k => (k, sumBy key val l k)

/-- Months since year 0: the calendar-month bucket a timestamp falls in. -/
def monthIndex (t : Timestamp) : Nat :=
  t.year * 12 + (t.month - 1)

def isLeapYear (y : Nat) : Bool :=
  y % 4 == 0 && (y % 100 != 0 || y % 400 == 0)

def daysInMonth (y m : Nat) : Nat :=
  if m = 2 then (if isLeapYear y then 29 else 28)
  else if m = 4 ∨ m = 6 ∨ m = 9 ∨ m = 11 then 30
  else 31

/-- The month-end label `resample('M')` attaches to the calendar-month
bucket `idx`: the last calendar day of that month, at midnight. -/
def monthEnd (idx : Nat) : Timestamp :=
  { year := idx / 12
    month := idx % 12 + 1
    day := daysInMonth (idx / 12) (idx % 12 + 1)
    hour := 0
    minute := 0 }

/-- The regular monthly bins `resample('M')` lays over a group: every
calendar month from the group's earliest month to its latest month,
inclusive — months with no rows are included (their sum is 0). -/
def spanIdxs (ms : List Nat) : List Nat :=
  match ms with
  | [] => []
  | m :: rest =>
    (List.range (rest.foldl Nat.max m + 1 - rest.foldl Nat.min m)).map
      fun i => rest.foldl Nat.min m + i

/-- One row of the monthly summary: columns Country, InvoiceDate (the
month-end bucket label), TotalSales. -/
structure MonthlyRow where
  Country : String
  InvoiceDate : Timestamp
  TotalSales : Rat
deriving DecidableEq, Repr

/-- `get_monthly_sales`:
`data.groupby('Country').resample('M')['TotalSales'].sum().reset_index()`.
Countries ascending (groupby default); within each country one row per
calendar-month bin covering that country's date range, labelled by
month-end, holding the sum of `TotalSales` in that bin. -/
def get_monthly_sales (data : List Row) : List MonthlyRow :=
  (groupKeys strLe Row.Country data).flatMap fun c =>
    (spanIdxs ((data.filter fun r => r.Country = c).map
        fun r => monthIndex r.InvoiceDate)).map fun idx =>
      { Country := c
        InvoiceDate := monthEnd idx
        TotalSales :=
          sumBy (fun r => monthIndex r.InvoiceDate) Row.TotalSales
            (data.filter fun r => r.Country = c) idx }

/-- One row of the hourly summary: columns Hour, TotalSales. -/
structure HourRow where
  Hour : Nat
  TotalSales : Rat
deriving DecidableEq, Repr

/-- `get_sales_by_hour`.  The source first executes
`data['Hour'] = data.index.hour`, an assignment into the caller's
dataframe, so the embedding returns the updated table together with
`data.groupby('Hour')['TotalSales'].sum().reset_index()`.  The `Hour`
column of the updated table holds exactly the index hour, so grouping by
the column is grouping by the index hour. -/
def get_sales_by_hour (data : List Row) : List Row × List HourRow :=
  (data.map fun r => { r with Hour := some r.InvoiceDate.hour.val },
    (groupKeys (· ≤ ·) (fun r => r.InvoiceDate.hour.val)
        (data.map fun r => { r with Hour := some r.InvoiceDate.hour.val })).map
      fun h =>
        { Hour := h
          TotalSales :=
            sumBy (fun r => r.InvoiceDate.hour.val) Row.TotalSales
              (data.map fun r => { r with Hour := some r.InvoiceDate.hour.val })
              h })

/-- `total_sales_by_country` inside `plot_total_sales_by_country`:
`data.groupby('Country')['TotalSales'].sum().sort_values(ascending=False)`.
The groupby yields countries in ascending name order; `sort_values` then
orders by descending total.  Its default quicksort leaves the relative
order of equal totals unspecified; the embedding realizes one concrete
arrangement (a stable insertion sort), and no theorem below depends on
which arrangement of equal totals the sort realizes. -/
def total_sales_by_country (data : List Row) : List (String × Rat) :=
  List.insertionSort (fun p q => q.2 ≤ p.2)
    (groupbySum strLe Row.Country Row.TotalSales data)

/-- `top_5_countries = total_sales_by_country.head(5)`. -/
def top_5_countries (data : List Row) : List (String × Rat) :=
  (total_sales_by_country data).take 5

/-- `other_countries_sum = total_sales_by_country[5:].sum()`. -/
def other_countries_sum (data : List Row) : Rat :=
  (((total_sales_by_country data).drop 5).map Prod.snd).sum

/-- `pie_data = top_5_countries.append(pd.Series(other_countries_sum,
index=['Other Countries']))`. -/
def pie_data (data : List Row) : List (String × Rat) :=
  top_5_countries data ++ [("Other Countries", other_countries_sum data)]

/-- `explode = (0.1, 0.1, 0.1, 0.1, 0.1, 0.1)` — a fixed 6-tuple handed to
`plt.pie` regardless of how many entries `pie_data` has. -/
def explode : List Rat :=
  [0.1, 0.1, 0.1, 0.1, 0.1, 0.1]

/-- Number of distinct countries in the table. -/
def distinctCountries (data : List Row) : Nat :=
  (data.map Row.Country).dedup.length

/-- Number of distinct calendar months actually present in the table. -/
def distinctMonthsPresent (data : List Row) : Nat :=
  (data.map fun r => monthIndex r.InvoiceDate).dedup.length

/-- Number of calendar months spanned by the table, from its earliest
month to its latest month inclusive (0 for an empty table). -/
def monthSpanCount (data : List Row) : Nat :=
  (spanIdxs (data.map fun r => monthIndex r.InvoiceDate)).length

/-! ### Facts about the string order -/

theorem ltNatList_asymm :
    ∀ x y : List Nat, ltNatList x y = true → ltNatList y x = false
  | [], [] => by simp [ltNatList]
  | [], _ :: _ => by simp [ltNatList]
  | _ :: _, [] => by simp [ltNatList]
  | a :: as, b :: bs => by
    simp only [ltNatList]
    by_cases hab : a < b <;> by_cases hba : b < a <;>
      simp [hab, hba, Nat.lt_asymm] <;> first
        | omega
        | exact ltNatList_asymm as bs

theorem ltNatList_trans :
    ∀ x y z : List Nat,
      ltNatList x y = true → ltNatList y z = true → ltNatList x z = true
  | [], [], _ => fun _ hyz => hyz
  | [], _ :: _, [] => by simp [ltNatList]
  | [], _ :: _, _ :: _ => by simp [ltNatList]
  | _ :: _, [], _ => by simp [ltNatList]
  | _ :: _, _ :: _, [] => by simp [ltNatList]
  | a :: as, b :: bs, c :: cs => by
    intro hxy hyz
    simp only [ltNatList] at hxy hyz ⊢
    by_cases hab : a < b
    · by_cases hbc : b < c
      · simp [show a < c from by omega]
      · by_cases hcb : c < b
        · simp [hbc, hcb] at hyz
        · have hbc2 : b = c := by omega
          subst hbc2
          simp [hab]
    · by_cases hba : b < a
      · simp [hab, hba] at hxy
      · have hab2 : a = b := by omega
        subst hab2
        simp [hab] at hxy
        by_cases hac : a < c
        · simp [hac]
        · by_cases hca : c < a
          · simp [hac, hca] at hyz
          · simp [hac, hca] at hyz ⊢
            exact ltNatList_trans as bs cs hxy hyz

theorem ltNatList_eq_of_not :
    ∀ x y : List Nat, ltNatList x y = false → ltNatList y x = false → x = y
  | [], [] => by simp
  | [], _ :: _ => by simp [ltNatList]
  | _ :: _, [] => by simp [ltNatList]
  | a :: as, b :: bs => by
    intro hxy hyx
    simp only [ltNatList] at hxy hyx
    by_cases hab : a < b
    · simp [hab] at hxy
    · by_cases hba : b < a
      · simp [hab, hba] at hyx
      · have hab2 : a = b := by omega
        subst hab2
        simp [hab] at hxy hyx
        rw [ltNatList_eq_of_not as bs hxy hyx]

theorem strCodes_injective : Function.Injective strCodes := by
  intro a b h
  have hd : a.data = b.data := by
    have hinj : Function.Injective Char.toNat := fun c d hcd =>
      Char.ext (UInt32.toNat.inj hcd)
    exact List.map_injective_iff.mpr hinj h
  exact String.ext hd

instance : IsTrans String strLe := by
  constructor
  intro a b c hab hbc
  unfold strLe at hab hbc ⊢
  cases hac : ltNatList (strCodes c) (strCodes a) with
  | false => rfl
  | true =>
    cases hcb : ltNatList (strCodes b) (strCodes c) with
    | true =>
      have h2 := ltNatList_trans _ _ _ hcb hac
      simp [h2] at hab
    | false =>
      have hbceq : strCodes b = strCodes c := ltNatList_eq_of_not _ _ hcb hbc
      rw [← hbceq] at hac
      simp [hac] at hab

instance : IsTotal String strLe := by
  constructor
  intro a b
  unfold strLe
  cases h1 : ltNatList (strCodes b) (strCodes a) with
  | false => exact Or.inl rfl
  | true => exact Or.inr (ltNatList_asymm _ _ h1)

theorem strLt_of_strLe_of_ne {a b : String} (hle : strLe a b) (hne : a ≠ b) :
    strLt a b := by
  unfold strLe at hle
  unfold strLt
  cases h : ltNatList (strCodes a) (strCodes b) with
  | true => rfl
  | false => exact absurd (strCodes_injective (ltNatList_eq_of_not _ _ h hle)) hne

/-! ### Sum-partition facts: grouping a column and summing preserves the
total of that column. -/

theorem sum_map_add {κ : Type} (ks : List κ) (f g : κ → Rat) :
    (ks.map fun k => f k + g k).sum = (ks.map f).sum + (ks.map g).sum := by
  induction ks with
  | nil => simp
  | cons a l ih => simp [ih]; ring

theorem sum_map_ite {κ : Type} [DecidableEq κ] (ks : List κ) (a : κ) (v : Rat)
    (hnd : ks.Nodup) (ha : a ∈ ks) :
    (ks.map fun k => if a = k then v else 0).sum = v := by
  induction ks with
  | nil => cases ha
  | cons b l ih =>
    rcases List.mem_cons.mp ha with hab | hal
    · subst hab
      have : ∀ k ∈ l, (if a = k then v else 0) = 0 := by
        intro k hk
        have : a ≠ k := fun h => (List.nodup_cons.mp hnd).1 (h ▸ hk)
        simp [this]
      simp [List.map_congr_left this]
    · have hab : a ≠ b := fun h => (List.nodup_cons.mp hnd).1 (h ▸ hal)
      have := ih (List.nodup_cons.mp hnd).2 hal
      simp [hab, this]

theorem sum_map_zero {κ : Type} (ks : List κ) :
    (ks.map fun _ => (0 : Rat)).sum = 0 := by
  induction ks with
  | nil => rfl
  | cons a l ih => simp [ih]

theorem sumBy_cons {α κ : Type} [DecidableEq κ] (key : α → κ) (val : α → Rat)
    (x : α) (l : List α) (k : κ) :
    sumBy key val (x :: l) k =
      (if key x = k then val x else 0) + sumBy key val l k := by
  by_cases h : key x = k <;> simp [sumBy, List.filter_cons, h]

theorem sumBy_partition {α κ : Type} [DecidableEq κ] (key : α → κ)
    (val : α → Rat) (l : List α) (ks : List κ) (hnd : ks.Nodup)
    (hcov : ∀ x ∈ l, key x ∈ ks) :
    (ks.map (sumBy key val l)).sum = (l.map val).sum := by
  induction l with
  | nil =>
    have h0 : ks.map (sumBy key val []) = ks.map fun _ => (0 : Rat) := rfl
    rw [h0, sum_map_zero]
    rfl
  | cons x l ih =>
    have h1 : (ks.map (sumBy key val (x :: l))).sum =
        (ks.map fun k => if key x = k then val x else 0).sum +
          (ks.map (sumBy key val l)).sum := by
      rw [← sum_map_add]
      exact congrArg List.sum
        (List.map_congr_left fun k _ => sumBy_cons key val x l k)
    rw [h1, sum_map_ite ks (key x) (val x) hnd (hcov x (List.mem_cons_self x l)),
      ih fun y hy => hcov y (List.mem_cons_of_mem x hy)]
    simp

/-! ### Facts about group keys -/

theorem groupKeys_perm {α κ : Type} [DecidableEq κ] (le : κ → κ → Prop)
    [DecidableRel le] (key : α → κ) (l : List α) :
    List.Perm (groupKeys le key l) (l.map key).dedup :=
  List.perm_insertionSort le _

theorem nodup_groupKeys {α κ : Type} [DecidableEq κ] (le : κ → κ → Prop)
    [DecidableRel le] (key : α → κ) (l : List α) :
    (groupKeys le key l).Nodup :=
  ((groupKeys_perm le key l).nodup_iff).mpr (List.nodup_dedup _)

theorem mem_groupKeys {α κ : Type} [DecidableEq κ] (le : κ → κ → Prop)
    [DecidableRel le] (key : α → κ) (l : List α) (k : κ) :
    k ∈ groupKeys le key l ↔ k ∈ l.map key := by
  rw [(groupKeys_perm le key l).mem_iff, List.mem_dedup]

theorem length_groupKeys {α κ : Type} [DecidableEq κ] (le : κ → κ → Prop)
    [DecidableRel le] (key : α → κ) (l : List α) :
    (groupKeys le key l).length = (l.map key).dedup.length :=
  (groupKeys_perm le key l).length_eq

theorem sum_groupbySum {α κ : Type} [DecidableEq κ] (le : κ → κ → Prop)
    [DecidableRel le] (key : α → κ) (val : α → Rat) (l : List α) :
    ((groupbySum le key val l).map Prod.snd).sum = (l.map val).sum := by
  unfold groupbySum
  rw [List.map_map]
  have : (Prod.snd ∘ fun k => (k, sumBy key val l k)) = sumBy key val l := rfl
  rw [this]
  exact sumBy_partition key val l _ (nodup_groupKeys le key l)
    fun x hx => (mem_groupKeys le key l (key x)).mpr (List.mem_map_of_mem key hx)

/-! ### Claim C1 -/

/-- C1: for every row that remains in the table returned by
`load_and_preprocess_data`, the `TotalSales` column equals `Quantity`
multiplied by `UnitPrice` for that row, exactly. -/
theorem totalSales_is_quantity_times_unitPrice (raw : List RawRow) (r : Row)
    (h : r ∈ load_and_preprocess_data raw) :
    r.TotalSales = (r.Quantity : Rat) * r.UnitPrice := by
  rcases List.mem_filterMap.mp h with ⟨a, _, heq⟩
  revert heq
  cases a.InvoiceDate <;> intro heq
  · exact Option.noConfusion heq
  · cases Option.some.inj heq
    rfl

/-- Witness for C1 at a concrete input: preprocessing the single raw row
(UK, 2021-01-05, 2, 3) yields a row whose TotalSales is its Quantity times
its UnitPrice. -/
theorem totalSales_is_quantity_times_unitPrice_witness :
    ({ Country := "UK", InvoiceDate := ⟨2021, 1, 5, 0, 0⟩, Quantity := 2,
       UnitPrice := 3, TotalSales := 6, Hour := none } : Row).TotalSales =
      ((({ Country := "UK", InvoiceDate := ⟨2021, 1, 5, 0, 0⟩, Quantity := 2,
           UnitPrice := 3, TotalSales := 6, Hour := none } : Row).Quantity : Rat)) *
        ({ Country := "UK", InvoiceDate := ⟨2021, 1, 5, 0, 0⟩, Quantity := 2,
           UnitPrice := 3, TotalSales := 6, Hour := none } : Row).UnitPrice :=
  totalSales_is_quantity_times_unitPrice
    [{ Country := "UK", InvoiceDate := some ⟨2021, 1, 5, 0, 0⟩, Quantity := 2,
       UnitPrice := 3 }]
    _ (by decide)

/-! ### Claim C2 -/

/-- C2: the cleaned table excludes exactly the rows whose `InvoiceDate`
failed to parse: projecting away the computed columns, the cleaned table is
precisely the parseable raw rows, in order and multiplicity, with the
parsed timestamp as index. -/
theorem cleaned_keeps_exactly_parseable_rows (raw : List RawRow) :
    (load_and_preprocess_data raw).map
        (fun c => (c.Country, some c.InvoiceDate, c.Quantity, c.UnitPrice)) =
      (raw.filter fun r => r.InvoiceDate.isSome).map
        (fun r => (r.Country, r.InvoiceDate, r.Quantity, r.UnitPrice)) := by
  induction raw with
  | nil => rfl
  | cons a l ih =>
    unfold load_and_preprocess_data at ih ⊢
    cases h : a.InvoiceDate <;>
      simp [List.filterMap_cons, List.filter_cons, h, ih]

/-! ### Claim C8 -/

/-- C8 (amended): `get_sales_by_hour` is not pure — it writes an `Hour`
column into the caller's table.  The returned table has every other column
unchanged and its `Hour` column set to the hour of the timestamp index. -/
theorem sales_by_hour_writes_hour_column (data : List Row) :
    (get_sales_by_hour data).1.map Row.Country = data.map Row.Country ∧
      (get_sales_by_hour data).1.map Row.InvoiceDate =
        data.map Row.InvoiceDate ∧
      (get_sales_by_hour data).1.map Row.Quantity = data.map Row.Quantity ∧
      (get_sales_by_hour data).1.map Row.UnitPrice = data.map Row.UnitPrice ∧
      (get_sales_by_hour data).1.map Row.TotalSales =
        data.map Row.TotalSales ∧
      (get_sales_by_hour data).1.map Row.Hour =
        data.map fun r => some r.InvoiceDate.hour.val := by
  refine ⟨?_, ?_, ?_, ?_, ?_, ?_⟩ <;>
    simp [get_sales_by_hour, List.map_map, Function.comp]

/-- Counterexample to C8 as stated: on the cleaned table obtained from the
single raw row (UK, 2021-01-05 09:30, 2, 3), `get_sales_by_hour` returns a
table different from its input (the `Hour` column was absent and is now
present), so the three aggregations are not all input-preserving. -/
theorem sales_by_hour_mutates_counterexample :
    (get_sales_by_hour (load_and_preprocess_data
        [{ Country := "UK", InvoiceDate := some ⟨2021, 1, 5, 9, 30⟩,
           Quantity := 2, UnitPrice := 3 }])).1 ≠
      load_and_preprocess_data
        [{ Country := "UK", InvoiceDate := some ⟨2021, 1, 5, 9, 30⟩,
           Quantity := 2, UnitPrice := 3 }] := by
  decide

/-! ### Claim C9 -/

/-- The spec's worked example.  The middle row's date text "bad-date" does
not parse, so its `InvoiceDate` cell is `none`. -/
def exampleRaw : List RawRow :=
  [{ Country := "UK", InvoiceDate := some ⟨2021, 1, 5, 0, 0⟩,
     Quantity := 2, UnitPrice := 3 },
   { Country := "UK", InvoiceDate := none, Quantity := 1, UnitPrice := 100 },
   { Country := "France", InvoiceDate := some ⟨2021, 1, 10, 0, 0⟩,
     Quantity := 1, UnitPrice := 10 }]

/-- C9: on the spec's three-row example the cleaned table has exactly 2
rows with TotalSales values [6, 10], and both the hourly summary and the
monthly summary sum to 16. -/
theorem example_pipeline_values :
    (load_and_preprocess_data exampleRaw).length = 2 ∧
      (load_and_preprocess_data exampleRaw).map Row.TotalSales = [6, 10] ∧
      ((get_sales_by_hour (load_and_preprocess_data exampleRaw)).2.map
          HourRow.TotalSales).sum = 16 ∧
      ((get_monthly_sales (load_and_preprocess_data exampleRaw)).map
          MonthlyRow.TotalSales).sum = 16 := by
  decide

/-! ### Claim C3 -/

/-- C3: the hourly summary has at most 24 rows, every `Hour` value lies in
`[0, 23]`, and the hourly totals sum to the sum of `TotalSales` over the
entire cleaned table. -/
theorem hourly_summary_bounds (data : List Row) :
    (get_sales_by_hour data).2.length ≤ 24 ∧
      (∀ hr ∈ (get_sales_by_hour data).2, hr.Hour ≤ 23) ∧
      ((get_sales_by_hour data).2.map HourRow.TotalSales).sum =
        (data.map Row.TotalSales).sum := by
  have hkeys :
      ∀ k ∈ groupKeys (· ≤ ·) (fun r : Row => r.InvoiceDate.hour.val)
          (data.map fun r => { r with Hour := some r.InvoiceDate.hour.val }),
        k < 24 := by
    intro k hk
    rcases List.mem_map.mp ((mem_groupKeys _ _ _ k).mp hk) with ⟨r, _, hr⟩
    rw [← hr]
    exact r.InvoiceDate.hour.isLt
  refine ⟨?_, ?_, ?_⟩
  · have h1 : (get_sales_by_hour data).2.length =
        (groupKeys (· ≤ ·) (fun r : Row => r.InvoiceDate.hour.val)
          (data.map fun r =>
            { r with Hour := some r.InvoiceDate.hour.val })).length :=
      List.length_map _ _
    rw [h1]
    have hsub := List.subperm_of_subset (nodup_groupKeys _ _ _)
      fun k hk => List.mem_range.mpr (hkeys k hk)
    simpa using hsub.length_le
  · intro hr hmem
    rcases List.mem_map.mp hmem with ⟨k, hk, hmk⟩
    rw [← hmk]
    exact Nat.lt_succ_iff.mp (hkeys k hk)
  · have h2 : (get_sales_by_hour data).2.map HourRow.TotalSales =
        (groupKeys (· ≤ ·) (fun r : Row => r.InvoiceDate.hour.val)
            (data.map fun r =>
              { r with Hour := some r.InvoiceDate.hour.val })).map
          (sumBy (fun r : Row => r.InvoiceDate.hour.val) Row.TotalSales
            (data.map fun r =>
              { r with Hour := some r.InvoiceDate.hour.val })) := by
      rw [show (get_sales_by_hour data).2.map HourRow.TotalSales =
          ((groupKeys (· ≤ ·) (fun r : Row => r.InvoiceDate.hour.val)
              (data.map fun r =>
                { r with Hour := some r.InvoiceDate.hour.val })).map
            fun h =>
              ({ Hour := h
                 TotalSales :=
                   sumBy (fun r : Row => r.InvoiceDate.hour.val)
                     Row.TotalSales
                     (data.map fun r =>
                       { r with Hour := some r.InvoiceDate.hour.val }) h } :
                HourRow)).map HourRow.TotalSales from rfl]
      rw [List.map_map]
      rfl
    rw [h2,
      sumBy_partition _ Row.TotalSales _ _ (nodup_groupKeys _ _ _)
        (fun x hx => (mem_groupKeys _ _ _ _).mpr (List.mem_map_of_mem _ hx))]
    rw [List.map_map]
    rfl

/-- Witness for C3 at the spec's example input. -/
theorem hourly_summary_bounds_witness :
    (get_sales_by_hour (load_and_preprocess_data exampleRaw)).2.length ≤ 24 ∧
      (∀ hr ∈ (get_sales_by_hour (load_and_preprocess_data exampleRaw)).2,
        hr.Hour ≤ 23) ∧
      ((get_sales_by_hour (load_and_preprocess_data exampleRaw)).2.map
          HourRow.TotalSales).sum =
        ((load_and_preprocess_data exampleRaw).map Row.TotalSales).sum :=
  hourly_summary_bounds (load_and_preprocess_data exampleRaw)

/-! ### Claims C4 and C10: the country pie -/

theorem total_sales_by_country_perm (data : List Row) :
    List.Perm (total_sales_by_country data)
      (groupbySum strLe Row.Country Row.TotalSales data) :=
  List.perm_insertionSort _ _

theorem sum_total_sales_by_country (data : List Row) :
    ((total_sales_by_country data).map Prod.snd).sum =
      (data.map Row.TotalSales).sum := by
  rw [((total_sales_by_country_perm data).map Prod.snd).sum_eq]
  exact sum_groupbySum strLe Row.Country Row.TotalSales data

theorem length_total_sales_by_country (data : List Row) :
    (total_sales_by_country data).length = distinctCountries data := by
  rw [(total_sales_by_country_perm data).length_eq]
  unfold groupbySum
  rw [List.length_map, length_groupKeys]
  rfl

theorem top5_add_other_eq_total (data : List Row) :
    ((top_5_countries data).map Prod.snd).sum + other_countries_sum data =
      (data.map Row.TotalSales).sum := by
  rw [← sum_total_sales_by_country data]
  conv_rhs => rw [← List.take_append_drop 5 (total_sales_by_country data)]
  rw [List.map_append, List.sum_append]
  rfl

/-- C4: the pie buckets (top 5 countries plus "Other Countries") sum to
the total `TotalSales` across all countries; the "Other Countries" bucket
equals that total minus the top-5 sum; and when there are at least five
distinct countries the pie has exactly 6 buckets. -/
theorem pie_buckets_conserve_total (data : List Row) :
    ((pie_data data).map Prod.snd).sum = (data.map Row.TotalSales).sum ∧
      other_countries_sum data =
        (data.map Row.TotalSales).sum -
          ((top_5_countries data).map Prod.snd).sum ∧
      (5 ≤ distinctCountries data → (pie_data data).length = 6) := by
  refine ⟨?_, ?_, ?_⟩
  · have : ((pie_data data).map Prod.snd).sum =
        ((top_5_countries data).map Prod.snd).sum +
          other_countries_sum data := by
      simp [pie_data]
    rw [this, top5_add_other_eq_total]
  · have h := top5_add_other_eq_total data
    linarith
  · intro h5
    have : (pie_data data).length =
        min 5 (total_sales_by_country data).length + 1 := by
      simp [pie_data, top_5_countries]
    rw [this, length_total_sales_by_country]
    omega

/-- Witness for C4 at the spec's example input. -/
theorem pie_buckets_conserve_total_witness :
    (((pie_data (load_and_preprocess_data exampleRaw)).map Prod.snd).sum =
        ((load_and_preprocess_data exampleRaw).map Row.TotalSales).sum ∧
      other_countries_sum (load_and_preprocess_data exampleRaw) =
        ((load_and_preprocess_data exampleRaw).map Row.TotalSales).sum -
          ((top_5_countries (load_and_preprocess_data exampleRaw)).map
              Prod.snd).sum ∧
      (5 ≤ distinctCountries (load_and_preprocess_data exampleRaw) →
        (pie_data (load_and_preprocess_data exampleRaw)).length = 6)) :=
  pie_buckets_conserve_total (load_and_preprocess_data exampleRaw)

/-- C10: the pie data always gets the "Other Countries" bucket appended,
so it has `min(k, 5) + 1` entries for `k` distinct countries; with `k ≤ 5`
the bucket's value is 0; with `k < 5` the pie data has fewer than 6
entries while the explode tuple passed to the pie renderer has exactly 6. -/
theorem pie_bucket_count (data : List Row) :
    (pie_data data).length = min (distinctCountries data) 5 + 1 ∧
      (distinctCountries data ≤ 5 → other_countries_sum data = 0) ∧
      (distinctCountries data < 5 →
        (pie_data data).length < 6 ∧ explode.length = 6) := by
  have hlen : (pie_data data).length =
      min (distinctCountries data) 5 + 1 := by
    have : (pie_data data).length =
        min 5 (total_sales_by_country data).length + 1 := by
      simp [pie_data, top_5_countries]
    rw [this, length_total_sales_by_country]
    omega
  refine ⟨hlen, ?_, ?_⟩
  · intro hk
    have hdrop : (total_sales_by_country data).drop 5 = [] :=
      List.drop_eq_nil_iff.mpr
        (by rw [length_total_sales_by_country]; omega)
    unfold other_countries_sum
    rw [hdrop]
    rfl
  · intro hk
    constructor
    · omega
    · rfl

/-- Witness for C10 at the spec's example input (2 distinct countries). -/
theorem pie_bucket_count_witness :
    ((pie_data (load_and_preprocess_data exampleRaw)).length =
        min (distinctCountries (load_and_preprocess_data exampleRaw)) 5 + 1 ∧
      (distinctCountries (load_and_preprocess_data exampleRaw) ≤ 5 →
        other_countries_sum (load_and_preprocess_data exampleRaw) = 0) ∧
      (distinctCountries (load_and_preprocess_data exampleRaw) < 5 →
        (pie_data (load_and_preprocess_data exampleRaw)).length < 6 ∧
          explode.length = 6)) :=
  pie_bucket_count (load_and_preprocess_data exampleRaw)

/-! ### Facts about month spans (the bins `resample('M')` lays down) -/

theorem foldl_min_le_init : ∀ (l : List Nat) (m : Nat), l.foldl Nat.min m ≤ m
  | [], m => le_refl m
  | a :: l, m =>
    le_trans (foldl_min_le_init l (Nat.min m a)) (Nat.min_le_left m a)

theorem foldl_min_le_mem :
    ∀ (l : List Nat) (m x : Nat), x ∈ l → l.foldl Nat.min m ≤ x
  | [], _, _, hx => absurd hx (List.not_mem_nil _)
  | a :: l, m, x, hx => by
    rcases List.mem_cons.mp hx with h | h
    · subst h
      exact le_trans (foldl_min_le_init l (Nat.min m x)) (Nat.min_le_right m x)
    · exact foldl_min_le_mem l (Nat.min m a) x h

theorem foldl_min_le_all (l : List Nat) (m x : Nat) (hx : x ∈ m :: l) :
    l.foldl Nat.min m ≤ x := by
  rcases List.mem_cons.mp hx with h | h
  · subst h
    exact foldl_min_le_init l x
  · exact foldl_min_le_mem l m x h

theorem foldl_min_mem : ∀ (l : List Nat) (m : Nat), l.foldl Nat.min m ∈ m :: l
  | [], m => List.mem_singleton.mpr rfl
  | a :: l, m => by
    rw [List.foldl_cons]
    rcases List.mem_cons.mp (foldl_min_mem l (Nat.min m a)) with h1 | h1
    · rw [h1]
      rcases (show Nat.min m a = m ∨ Nat.min m a = a from by
          by_cases hma : m ≤ a
          · exact Or.inl (Nat.min_eq_left hma)
          · exact Or.inr (Nat.min_eq_right (Nat.le_of_not_le hma))) with
        h2 | h2
      · rw [h2]
        exact List.mem_cons_self _ _
      · rw [h2]
        exact List.mem_cons_of_mem _ (List.mem_cons_self _ _)
    · exact List.mem_cons_of_mem _ (List.mem_cons_of_mem _ h1)

theorem le_foldl_max_init : ∀ (l : List Nat) (m : Nat), m ≤ l.foldl Nat.max m
  | [], m => le_refl m
  | a :: l, m =>
    le_trans (Nat.le_max_left m a) (le_foldl_max_init l (Nat.max m a))

theorem le_foldl_max_mem :
    ∀ (l : List Nat) (m x : Nat), x ∈ l → x ≤ l.foldl Nat.max m
  | [], _, _, hx => absurd hx (List.not_mem_nil _)
  | a :: l, m, x, hx => by
    rcases List.mem_cons.mp hx with h | h
    · subst h
      exact le_trans (Nat.le_max_right m x) (le_foldl_max_init l (Nat.max m x))
    · exact le_foldl_max_mem l (Nat.max m a) x h

theorem le_foldl_max_all (l : List Nat) (m x : Nat) (hx : x ∈ m :: l) :
    x ≤ l.foldl Nat.max m := by
  rcases List.mem_cons.mp hx with h | h
  · subst h
    exact le_foldl_max_init l x
  · exact le_foldl_max_mem l m x h

theorem foldl_max_mem : ∀ (l : List Nat) (m : Nat), l.foldl Nat.max m ∈ m :: l
  | [], m => List.mem_singleton.mpr rfl
  | a :: l, m => by
    rw [List.foldl_cons]
    rcases List.mem_cons.mp (foldl_max_mem l (Nat.max m a)) with h1 | h1
    · rw [h1]
      rcases (show Nat.max m a = m ∨ Nat.max m a = a from by
          by_cases hma : m ≤ a
          · exact Or.inr (Nat.max_eq_right hma)
          · exact Or.inl (Nat.max_eq_left (Nat.le_of_not_le hma))) with
        h2 | h2
      · rw [h2]
        exact List.mem_cons_self _ _
      · rw [h2]
        exact List.mem_cons_of_mem _ (List.mem_cons_self _ _)
    · exact List.mem_cons_of_mem _ (List.mem_cons_of_mem _ h1)

theorem spanIdxs_length_le {ms ns : List Nat} (hsub : ms ⊆ ns) :
    (spanIdxs ms).length ≤ (spanIdxs ns).length := by
  cases ms with
  | nil => simp [spanIdxs]
  | cons m rest =>
    cases ns with
    | nil => exact absurd (hsub (List.mem_cons_self m rest)) (List.not_mem_nil m)
    | cons n rest2 =>
      simp only [spanIdxs, List.length_map, List.length_range]
      have hlo : rest2.foldl Nat.min n ≤ rest.foldl Nat.min m :=
        foldl_min_le_all rest2 n _ (hsub (foldl_min_mem rest m))
      have hhi : rest.foldl Nat.max m ≤ rest2.foldl Nat.max n :=
        le_foldl_max_all rest2 n _ (hsub (foldl_max_mem rest m))
      omega

theorem mem_spanIdxs_of_mem {ms : List Nat} {x : Nat} (hx : x ∈ ms) :
    x ∈ spanIdxs ms := by
  cases ms with
  | nil => cases hx
  | cons m rest =>
    have hlo : rest.foldl Nat.min m ≤ x := foldl_min_le_all rest m x hx
    have hhi : x ≤ rest.foldl Nat.max m := le_foldl_max_all rest m x hx
    unfold spanIdxs
    refine List.mem_map.mpr ⟨x - rest.foldl Nat.min m, ?_, ?_⟩
    · exact List.mem_range.mpr (by omega)
    · omega

theorem map_filter_subset {α β : Type} (f : α → β) (p : α → Bool)
    (l : List α) : (l.filter p).map f ⊆ l.map f := by
  intro x hx
  rcases List.mem_map.mp hx with ⟨a, ha, rfl⟩
  exact List.mem_map_of_mem f (List.mem_of_mem_filter ha)

theorem length_flatMap {α β : Type} (l : List α) (f : α → List β) :
    (l.flatMap f).length = (l.map fun a => (f a).length).sum := by
  induction l with
  | nil => rfl
  | cons a t ih => simp [List.flatMap_cons, ih]

/-! ### Claim C5 -/

/-- Counterexample to C5 as stated: with one country and transactions in
January and March 2021 only, the monthly summary has 3 rows (resampling
fills the empty February bin), exceeding
(1 distinct country) × (2 distinct months present). -/
theorem monthly_rowcount_counterexample :
    ¬ ((get_monthly_sales (load_and_preprocess_data
          [{ Country := "UK", InvoiceDate := some ⟨2021, 1, 5, 0, 0⟩,
             Quantity := 1, UnitPrice := 1 },
           { Country := "UK", InvoiceDate := some ⟨2021, 3, 7, 0, 0⟩,
             Quantity := 1, UnitPrice := 1 }])).length ≤
        distinctCountries (load_and_preprocess_data
          [{ Country := "UK", InvoiceDate := some ⟨2021, 1, 5, 0, 0⟩,
             Quantity := 1, UnitPrice := 1 },
           { Country := "UK", InvoiceDate := some ⟨2021, 3, 7, 0, 0⟩,
             Quantity := 1, UnitPrice := 1 }]) *
          distinctMonthsPresent (load_and_preprocess_data
            [{ Country := "UK", InvoiceDate := some ⟨2021, 1, 5, 0, 0⟩,
               Quantity := 1, UnitPrice := 1 },
             { Country := "UK", InvoiceDate := some ⟨2021, 3, 7, 0, 0⟩,
               Quantity := 1, UnitPrice := 1 }])) := by
  decide

/-- C5 (amended): the monthly-by-country summary has at most
(distinct countries) × (calendar months spanned from the earliest to the
latest month present, inclusive) rows — `resample('M')` also emits rows
for empty months inside each country's range, so the span, not the set of
months actually present, is the correct per-country cap. -/
theorem monthly_rowcount_bound (data : List Row) :
    (get_monthly_sales data).length ≤
      distinctCountries data * monthSpanCount data := by
  have h1 : (get_monthly_sales data).length =
      ((groupKeys strLe Row.Country data).map fun c =>
        (spanIdxs ((data.filter fun r => r.Country = c).map
          fun r => monthIndex r.InvoiceDate)).length).sum := by
    unfold get_monthly_sales
    rw [length_flatMap]
    exact congrArg List.sum
      (List.map_congr_left fun c _ => List.length_map _ _)
  rw [h1]
  have h2 : ∀ x ∈ (groupKeys strLe Row.Country data).map fun c =>
      (spanIdxs ((data.filter fun r => r.Country = c).map
        fun r => monthIndex r.InvoiceDate)).length,
      x ≤ monthSpanCount data := by
    intro x hx
    rcases List.mem_map.mp hx with ⟨c, _, hxc⟩
    rw [← hxc]
    exact spanIdxs_length_le (map_filter_subset _ _ data)
  have hsum := List.sum_le_card_nsmul _ (monthSpanCount data) h2
  rw [List.length_map, length_groupKeys, smul_eq_mul] at hsum
  exact hsum

/-! ### Claim C6 -/

theorem monthIndex_monthEnd (i : Nat) : monthIndex (monthEnd i) = i := by
  show (monthEnd i).year * 12 + ((monthEnd i).month - 1) = i
  have hy : (monthEnd i).year = i / 12 := rfl
  have hm : (monthEnd i).month = i % 12 + 1 := rfl
  rw [hy, hm]
  omega

/-- C6: each row of the monthly summary is labelled by the month-end of
its calendar-month bucket and holds the sum of `TotalSales` over that
country's rows falling in that month; and every cleaned row is covered by
a summary row for its country and its month bucket. -/
theorem monthly_sales_characterization (data : List Row) :
    (∀ mr ∈ get_monthly_sales data,
        mr.InvoiceDate = monthEnd (monthIndex mr.InvoiceDate) ∧
          mr.TotalSales =
            sumBy (fun r => monthIndex r.InvoiceDate) Row.TotalSales
              (data.filter fun r => r.Country = mr.Country)
              (monthIndex mr.InvoiceDate)) ∧
      (∀ r ∈ data, ∃ mr ∈ get_monthly_sales data,
        mr.Country = r.Country ∧
          mr.InvoiceDate = monthEnd (monthIndex r.InvoiceDate)) := by
  constructor
  · intro mr hmr
    rcases List.mem_flatMap.mp hmr with ⟨c, _, hmem⟩
    rcases List.mem_map.mp hmem with ⟨idx, _, hmk⟩
    rw [← hmk]
    refine ⟨?_, ?_⟩
    · show monthEnd idx = monthEnd (monthIndex (monthEnd idx))
      rw [monthIndex_monthEnd]
    · show sumBy _ Row.TotalSales (data.filter fun r => r.Country = c) idx =
        sumBy _ Row.TotalSales (data.filter fun r => r.Country = c)
          (monthIndex (monthEnd idx))
      rw [monthIndex_monthEnd]
  · intro r hr
    refine ⟨{ Country := r.Country
              InvoiceDate := monthEnd (monthIndex r.InvoiceDate)
              TotalSales :=
                sumBy (fun r2 => monthIndex r2.InvoiceDate) Row.TotalSales
                  (data.filter fun r2 => r2.Country = r.Country)
                  (monthIndex r.InvoiceDate) },
            ?_, rfl, rfl⟩
    refine List.mem_flatMap.mpr ⟨r.Country, ?_, ?_⟩
    · exact (mem_groupKeys _ _ _ _).mpr (List.mem_map_of_mem Row.Country hr)
    · refine List.mem_map.mpr ⟨monthIndex r.InvoiceDate, ?_, rfl⟩
      apply mem_spanIdxs_of_mem
      refine List.mem_map.mpr ⟨r, ?_, rfl⟩
      exact List.mem_filter.mpr ⟨hr, by simp⟩

/-- Witness for C6 at the spec's example input. -/
theorem monthly_sales_characterization_witness :
    ((∀ mr ∈ get_monthly_sales (load_and_preprocess_data exampleRaw),
        mr.InvoiceDate = monthEnd (monthIndex mr.InvoiceDate) ∧
          mr.TotalSales =
            sumBy (fun r => monthIndex r.InvoiceDate) Row.TotalSales
              ((load_and_preprocess_data exampleRaw).filter
                fun r => r.Country = mr.Country)
              (monthIndex mr.InvoiceDate)) ∧
      (∀ r ∈ load_and_preprocess_data exampleRaw,
        ∃ mr ∈ get_monthly_sales (load_and_preprocess_data exampleRaw),
          mr.Country = r.Country ∧
            mr.InvoiceDate = monthEnd (monthIndex r.InvoiceDate))) :=
  monthly_sales_characterization (load_and_preprocess_data exampleRaw)

/-! ### Claim C7 -/

/-- Two countries with equal totals, the one named "B" first in the input.
Both parse, so the cleaned table lists B's row before A's. -/
def tieRaw : List RawRow :=
  [{ Country := "B", InvoiceDate := some ⟨2021, 1, 5, 0, 0⟩,
     Quantity := 1, UnitPrice := 1 },
   { Country := "A", InvoiceDate := some ⟨2021, 1, 5, 0, 0⟩,
     Quantity := 1, UnitPrice := 1 }]

/-- Counterexample to C7 as stated: country "B" appears before country "A"
in the input and their totals tie at 1, yet the top-5 selection lists
"A" before "B" — the groupby sorts countries alphabetically before the
value sort, so input order cannot break ties. -/
theorem top5_tie_order_counterexample :
    (load_and_preprocess_data tieRaw).map Row.Country = ["B", "A"] ∧
      sumBy Row.Country Row.TotalSales (load_and_preprocess_data tieRaw)
          "A" =
        sumBy Row.Country Row.TotalSales (load_and_preprocess_data tieRaw)
          "B" ∧
      top_5_countries (load_and_preprocess_data tieRaw) =
        [("A", 1), ("B", 1)] := by
  decide

/-- C7 (amended): the top-N selection sums `TotalSales` per country and
takes the 5 head entries of the value-sorted country totals: the sorted
list is a permutation of the per-country sums arranged in weakly
descending order of total.  The relative order of countries with equal
totals is not guaranteed by the source (`groupby` sorts countries
alphabetically, destroying input order, and `sort_values`' default
quicksort is not stable), so in particular ties are not broken by stable
input order; only the descending-by-total arrangement is asserted, which
holds for every realization of the sort. -/
theorem top5_descending_by_total (data : List Row) :
    List.Perm (total_sales_by_country data)
      (groupbySum strLe Row.Country Row.TotalSales data) ∧
      List.Pairwise (fun p q : String × Rat => q.2 ≤ p.2)
        (total_sales_by_country data) ∧
      top_5_countries data = (total_sales_by_country data).take 5 := by
  refine ⟨total_sales_by_country_perm data, ?_, rfl⟩
  exact @List.sorted_insertionSort (String × Rat)
    (fun p q => q.2 ≤ p.2) inferInstance
    ⟨fun p q => le_total q.2 p.2⟩ ⟨fun _ _ _ h1 h2 => le_trans h2 h1⟩ _

/-- Witness for C7's amended theorem at the tie example. -/
theorem top5_descending_by_total_witness :
    (List.Perm (total_sales_by_country (load_and_preprocess_data tieRaw))
        (groupbySum strLe Row.Country Row.TotalSales
          (load_and_preprocess_data tieRaw)) ∧
      List.Pairwise (fun p q : String × Rat => q.2 ≤ p.2)
        (total_sales_by_country (load_and_preprocess_data tieRaw)) ∧
      top_5_countries (load_and_preprocess_data tieRaw) =
        (total_sales_by_country (load_and_preprocess_data tieRaw)).take 5) :=
  top5_descending_by_total (load_and_preprocess_data tieRaw)

end RetailSales
